import Mathlib

/-!
Verification development for the TDA feature-engineering pipeline
(`feature engineering via tda.ipynb`): sliding windows, persistence-diagram
feature extraction (lives, entropy, Betti-curve area, landscape area), and
the rolling mean/std window aggregation.

Diagram entries are modelled as extended rationals (`FVal`): numpy's
`inf`/`-inf` are explicit constructors, finite values are rationals.
Real-valued features (those applying `sqrt`/`log`) live in `ℝ`; all
intermediate arithmetic on diagram coordinates is exact rational arithmetic.
-/

namespace TDA

/-- A diagram coordinate as produced by the homology engines: a finite
value, `+inf`, or `-inf` (numpy floating values, idealized as rationals). -/
inductive FVal where
  | fin (q : ℚ)
  | inf
  | ninf
deriving DecidableEq

/-- `np.isinf` on one coordinate. -/
def FVal.isinf : FVal → Bool
  | .fin _ => false
  | .inf => true
  | .ninf => true

/-- The rational carried by a finite coordinate (junk value 0 on infinities;
only applied after the infinity filter). -/
def finVal : FVal → ℚ
  | .fin q => q
  | .inf => 0
  | .ninf => 0

/-- A diagram row `(birth, death)` survives `~np.any(np.isinf(diagram), axis=1)`
iff neither coordinate is infinite. -/
def rowFinite (p : FVal × FVal) : Bool := !p.1.isinf && !p.2.isinf

/-- `diagram[~np.any(np.isinf(diagram), axis=1)]`: keep the rows with two
finite coordinates, as exact rational pairs. -/
def filterFinite (dgm : List (FVal × FVal)) : List (ℚ × ℚ) :=
  (dgm.filter rowFinite).map (fun p => (finVal p.1, finVal p.2))

/-- `get_diagram_lives`: `diagram[:,1]-diagram[:,0] if len(diagram)>0 else [0]`. -/
def get_diagram_lives (diagram : List (ℚ × ℚ)) : List ℚ :=
  if diagram.length > 0 then diagram.map (fun p => p.2 - p.1) else [0]

/-- Python's `max` on a (nonempty) list; 0 on `[]` (the source never applies
it to an empty list: the lives sentinel guarantees nonemptiness). -/
def pymax : List ℚ → ℚ
  | [] => 0
  | x :: xs => xs.foldl max x

/-- `lives/sum(lives)` (numpy elementwise division). -/
def normalizedLives (lives : List ℚ) : List ℚ :=
  lives.map (fun x => x / lives.sum)

/-- `get_diagram_entropy`: `0` when `max(abs(lives)) == 0`, otherwise
`sum(-p*log(p))` over the normalized lives. -/
noncomputable def get_diagram_entropy (lives : List ℚ) : ℝ :=
  if pymax (lives.map (fun x => |x|)) = 0 then 0
  else ((normalizedLives lives).map (fun p => -(p : ℝ) * Real.log (p : ℝ))).sum

/-- Betti-curve event order: sort the tagged birth (`false`) / death (`true`)
points by coordinate (`np.argsort` of `allPts`). -/
def evLe (a b : ℚ × Bool) : Prop := a.1 ≤ b.1

instance : DecidableRel evLe := fun a b => inferInstanceAs (Decidable (a.1 ≤ b.1))

/-- `allPts`/`birthOrDeathSorted`: births tagged `false`, deaths tagged `true`,
sorted together by coordinate. -/
def bettiEvents (diagram : List (ℚ × ℚ)) : List (ℚ × Bool) :=
  List.insertionSort evLe
    (diagram.map (fun p => (p.1, false)) ++ diagram.map (fun p => (p.2, true)))

/-- The sweep loop of `get_area_under_betti_curve`: running height `h` is
incremented at a birth, decremented at a death, then `h*(width)` and
`h^2*(width)` are accumulated for each consecutive gap. -/
def bettiLoop : ℚ → List (ℚ × Bool) → ℚ × ℚ
  | _, [] => (0, 0)
  | _, [_] => (0, 0)
  | h, a :: b :: rest =>
      let h2 := if a.2 = false then h + 1 else h - 1
      let r := bettiLoop h2 (b :: rest)
      (h2 * (b.1 - a.1) + r.1, h2 * h2 * (b.1 - a.1) + r.2)

/-- `get_area_under_betti_curve`: `[0, 0]` on the empty diagram, otherwise
the swept `L1` area and the square root of the swept `L2` accumulator. -/
noncomputable def get_area_under_betti_curve (diagram : List (ℚ × ℚ)) : ℝ × ℝ :=
  if diagram.length = 0 then (0, 0)
  else (((bettiLoop 0 (bettiEvents diagram)).1 : ℝ),
        Real.sqrt ((bettiLoop 0 (bettiEvents diagram)).2 : ℝ))

end TDA

namespace TDA

/-- Row order used by `np.unique(diagram, axis=0)` and
`np.lexsort((diagram[:,1], diagram[:,0]))`: by column 0, then column 1. -/
def rowLe (a b : ℚ × ℚ) : Prop := a.1 < b.1 ∨ (a.1 = b.1 ∧ a.2 ≤ b.2)

instance : DecidableRel rowLe :=
  fun a b => inferInstanceAs (Decidable (a.1 < b.1 ∨ (a.1 = b.1 ∧ a.2 ≤ b.2)))

instance : IsTotal (ℚ × ℚ) rowLe :=
  ⟨by
    intro a b
    rcases lt_trichotomy a.1 b.1 with h | h | h
    · exact Or.inl (Or.inl h)
    · rcases le_total a.2 b.2 with h2 | h2
      · exact Or.inl (Or.inr ⟨h, h2⟩)
      · exact Or.inr (Or.inr ⟨h.symm, h2⟩)
    · exact Or.inr (Or.inl h)⟩

instance : IsTrans (ℚ × ℚ) rowLe :=
  ⟨by
    intro a b c hab hbc
    rcases hab with h1 | ⟨h1, h1'⟩
    · rcases hbc with h2 | ⟨h2, h2'⟩
      · exact Or.inl (h1.trans h2)
      · exact Or.inl (h2 ▸ h1)
    · rcases hbc with h2 | ⟨h2, h2'⟩
      · exact Or.inl (h1 ▸ h2)
      · exact Or.inr ⟨h1.trans h2, h1'.trans h2'⟩⟩

instance : IsAntisymm (ℚ × ℚ) rowLe :=
  ⟨by
    intro a b hab hba
    rcases hab with h1 | ⟨h1, h1'⟩
    · rcases hba with h2 | ⟨h2, h2'⟩
      · exact absurd (h1.trans h2) (lt_irrefl _)
      · exact absurd h1 (h2 ▸ lt_irrefl _)
    · rcases hba with h2 | ⟨h2, h2'⟩
      · exact absurd h2 (h1 ▸ lt_irrefl _)
      · exact Prod.ext h1 (le_antisymm h1' h2')⟩

/-- Sort rows by `(col0, col1)` (the key order of the source's `lexsort`). -/
def sortRows (l : List (ℚ × ℚ)) : List (ℚ × ℚ) := List.insertionSort rowLe l

/-- `np.unique(..., axis=0)`: deduplicate rows exactly and return them sorted
lexicographically. -/
def npUnique (l : List (ℚ × ℚ)) : List (ℚ × ℚ) := sortRows l.dedup

/-- Tail of `np.maximum.accumulate(diagram[:,1]) == diagram[:,1]` filtering:
`m` is the running maximum of deaths seen so far; a row is kept iff its death
attains the updated running maximum. -/
def runMaxFilterAux : ℚ → List (ℚ × ℚ) → List (ℚ × ℚ)
  | _, [] => []
  | m, p :: rest =>
      let m2 := max m p.2
      if p.2 = m2 then p :: runMaxFilterAux m2 rest else runMaxFilterAux m2 rest

/-- Keep the rows whose death equals the running maximum of deaths (the first
row always qualifies: the accumulated maximum there is its own death). -/
def runMaxFilter : List (ℚ × ℚ) → List (ℚ × ℚ)
  | [] => []
  | p :: rest => p :: runMaxFilterAux p.2 rest

/-- `getLandscapePoints`: deduplicate rows, sort by `(col0, col1)`, keep the
rows on the running maximum of deaths. -/
def getLandscapePoints (diagram : List (ℚ × ℚ)) : List (ℚ × ℚ) :=
  runMaxFilter (sortRows (npUnique diagram))

/-- Order by column 0 only (the `diagram[:,0].argsort()` re-sort). -/
def rowLe0 (a b : ℚ × ℚ) : Prop := a.1 ≤ b.1

instance : DecidableRel rowLe0 := fun a b => inferInstanceAs (Decidable (a.1 ≤ b.1))

/-- The body of the `getLandscapeReturnPoints` loop: for each survivor emit its
apex; between consecutive survivors emit either the two zero touch-points
(disjoint intervals) or the single merge point (overlapping intervals); after
the last survivor emit `(death, 0)`. -/
def returnPointsLoop : List (ℚ × ℚ) → List (ℚ × ℚ)
  | [] => []
  | [p] => [((p.2 + p.1) / 2, (p.2 - p.1) / 2), (p.2, 0)]
  | p :: q :: rest =>
      ((p.2 + p.1) / 2, (p.2 - p.1) / 2) ::
        ((if q.1 > p.2 then [(p.2, (0 : ℚ)), (q.1, (0 : ℚ))]
          else [((p.2 + q.1) / 2, (p.2 - q.1) / 2)]) ++ returnPointsLoop (q :: rest))

/-- `getLandscapeReturnPoints` applied to an already-extracted survivor list:
re-sort by birth, prepend `(birth_0, 0)`, run the loop, then `np.unique` the
resulting point list. -/
def returnPointsFrom (pts : List (ℚ × ℚ)) : List (ℚ × ℚ) :=
  match List.insertionSort rowLe0 pts with
  | [] => []
  | p :: rest => npUnique ((p.1, 0) :: returnPointsLoop (p :: rest))

/-- `getLandscapeReturnPoints`. -/
def getLandscapeReturnPoints (diagram : List (ℚ × ℚ)) : List (ℚ × ℚ) :=
  returnPointsFrom (getLandscapePoints diagram)

/-- `l2areaUnderLine`: closed-form trapezoid (`L1`) and squared-interpolant
(`L2`) areas of one segment. -/
def l2areaUnderLine (p1 p2 : ℚ × ℚ) : ℚ × ℚ :=
  (-((p1.1 - p2.1) * (p1.2 + p2.2)) / 2,
   -((p1.1 - p2.1) * (p1.2 ^ 2 + p1.2 * p2.2 + p2.2 ^ 2)) / 3)

/-- Sum `l2areaUnderLine` over consecutive return points. -/
def sumSegments : List (ℚ × ℚ) → ℚ × ℚ
  | [] => (0, 0)
  | [_] => (0, 0)
  | p :: q :: rest =>
      let a := l2areaUnderLine p q
      let r := sumSegments (q :: rest)
      (a.1 + r.1, a.2 + r.2)

/-- `get_area_under_landscape`: `[0, 0]` on the empty diagram, otherwise the
summed `L1` area and the square root of the summed `L2` accumulator. -/
noncomputable def get_area_under_landscape (diagram : List (ℚ × ℚ)) : ℝ × ℝ :=
  if diagram.length = 0 then (0, 0)
  else (((sumSegments (getLandscapeReturnPoints diagram)).1 : ℝ),
        Real.sqrt ((sumSegments (getLandscapeReturnPoints diagram)).2 : ℝ))

/-- The lives of the infinity-filtered diagram, as computed inside
`get_diagram_features`. -/
def livesOf (dgm : List (FVal × FVal)) : List ℚ :=
  get_diagram_lives (filterFinite dgm)

/-- `get_diagram_features`: remove rows containing an infinity, then assemble
`[sumLives, maxLife, diagramEntropy, areaBettiL1, areaBettiL2,
areaLandscapeL1, areaLandscapeL2]`. -/
noncomputable def get_diagram_features (dgm : List (FVal × FVal)) : List ℝ :=
  [((livesOf dgm).sum : ℝ) / Real.sqrt 2,
   ((pymax (livesOf dgm) : ℚ) : ℝ) / Real.sqrt 2,
   get_diagram_entropy (livesOf dgm),
   (get_area_under_betti_curve (filterFinite dgm)).1,
   (get_area_under_betti_curve (filterFinite dgm)).2,
   (get_area_under_landscape (filterFinite dgm)).1,
   (get_area_under_landscape (filterFinite dgm)).2]

/-- Number of elements of Python's `range(0, stop, step)` (`step ≠ 0`;
integer floor division matches Python's because the divisor is positive in
each branch). -/
def pyRangeCount (stop step : ℤ) : ℕ :=
  if 0 < step then (if stop ≤ 0 then 0 else ((stop - 1) / step + 1).toNat)
  else if step < 0 then (if 0 ≤ stop then 0 else ((-stop - 1) / (-step) + 1).toNat)
  else 0

/-- Python's `range(0, stop, step)` as a list. -/
def pyRange (stop step : ℤ) : List ℤ :=
  (List.range (pyRangeCount stop step)).map (fun (k : ℕ) => (k : ℤ) * step)

/-- Normalize a Python slice endpoint for a list of length `n`: negative
indices count from the end, and both ends clamp into `[0, n]`. -/
def pyClampIndex (n : ℕ) (i : ℤ) : ℕ :=
  if i < 0 then (i + n).toNat else min i.toNat n

/-- Python's `y[a:b]` (unit step). -/
def pySlice (y : List ℚ) (a b : ℤ) : List ℚ :=
  (y.drop (pyClampIndex y.length a)).take (pyClampIndex y.length b - pyClampIndex y.length a)

/-- `sliding_windows(y, window_length, window_shift)`:
`[y[i:i+window_length] for i in range(0, len(y)-window_length+1, window_shift)]`.
A zero shift makes `range` raise a `ValueError`; every other configuration
returns a (possibly empty) list of slices. -/
def sliding_windows (y : List ℚ) (window_length window_shift : ℤ) :
    Except String (List (List ℚ)) :=
  if window_shift = 0 then .error "ValueError: range() arg 3 must not be zero"
  else .ok ((pyRange ((y.length : ℤ) - window_length + 1) window_shift).map
    (fun i => pySlice y i (i + window_length)))

/-- The rolling window of `subwindows_per_window = w` rows ending at row `i`
(`rows[i-w+1 .. i]`, in natural-number arithmetic). -/
def windowSlice (rows : List (List ℚ)) (w i : ℕ) : List (List ℚ) :=
  (rows.drop (i + 1 - w)).take w

/-- Column `j` of a feature row (rows are rectangular in the source; the
default is never exercised there). -/
def colAt (r : List ℚ) (j : ℕ) : ℚ := r.getD j 0

/-- Mean of column `j` over a window of rows. -/
def colMean (win : List (List ℚ)) (j : ℕ) : ℚ :=
  (win.map (fun r => colAt r j)).sum / (win.length : ℚ)

/-- Sample variance (`ddof = 1`, pandas default) of column `j` over a window
of rows. -/
def colVar (win : List (List ℚ)) (j : ℕ) : ℚ :=
  (win.map (fun r => (colAt r j - colMean win j) ^ 2)).sum / ((win.length : ℚ) - 1)

/-- The mean row at index `i` for window size `w`. -/
def meanRowAt (rows : List (List ℚ)) (w ncols i : ℕ) : List ℚ :=
  (List.range ncols).map (colMean (windowSlice rows w i))

/-- The sample-standard-deviation row at index `i` for window size `w`. -/
noncomputable def stdRowAt (rows : List (List ℚ)) (w ncols i : ℕ) : List ℝ :=
  (List.range ncols).map (fun j => Real.sqrt ((colVar (windowSlice rows w i) j : ℚ) : ℝ))

/-- `all_subwindow_features.rolling(w).mean()`: row `i` is defined (non-NaN)
iff at least `w` observations are available, i.e. `w ≤ i + 1`. -/
def rollingMean (rows : List (List ℚ)) (w ncols : ℕ) : List (Option (List ℚ)) :=
  (List.range rows.length).map
    (fun i => if w ≤ i + 1 then some (meanRowAt rows w ncols i) else none)

/-- `all_subwindow_features.rolling(w).std()`: row `i` is defined (non-NaN)
iff `w ≤ i + 1` and moreover `2 ≤ w` — the sample standard deviation of a
single observation is NaN under the `ddof = 1` default. -/
noncomputable def rollingStd (rows : List (List ℚ)) (w ncols : ℕ) : List (Option (List ℝ)) :=
  (List.range rows.length).map
    (fun i => if 2 ≤ w ∧ w ≤ i + 1 then some (stdRowAt rows w ncols i) else none)

/-- `pd.concat([mean, std], axis=1).dropna()`: align the two rolling tables by
row, keep the rows where both halves are defined, and concatenate means with
standard deviations. -/
noncomputable def window_features (rows : List (List ℚ)) (w ncols : ℕ) : List (List ℝ) :=
  ((rollingMean rows w ncols).zip (rollingStd rows w ncols)).filterMap
    (fun p => match p with
      | (some m, some s) => some (m.map (fun (q : ℚ) => (q : ℝ)) ++ s)
      | _ => none)

/-- Claim C1: for a diagram that is empty after discarding pairs with an
infinite coordinate, `get_diagram_features` returns normally with the feature
vector `[0, 0, 0, 0, 0, 0, 0]`: the lives sentinel `[0]` makes `total_life`,
`max_life` and `entropy` zero, and the Betti-curve and landscape areas take
their explicit empty-diagram zero branches. -/
theorem extract_empty_diagram (dgm : List (FVal × FVal))
    (h : filterFinite dgm = []) :
    livesOf dgm = [0] ∧ get_diagram_features dgm = [0, 0, 0, 0, 0, 0, 0] := by
  have hl : livesOf dgm = [0] := by rw [livesOf, h]; rfl
  refine ⟨hl, ?_⟩
  unfold get_diagram_features
  rw [h, hl]
  norm_num [pymax, get_diagram_entropy, get_area_under_betti_curve,
    get_area_under_landscape]

/-- Witness for C1: the literally empty diagram satisfies the hypothesis and
yields the zero feature vector. -/
theorem extract_empty_diagram_witness :
    filterFinite [] = [] ∧
      (livesOf [] = [0] ∧ get_diagram_features [] = [0, 0, 0, 0, 0, 0, 0]) :=
  ⟨rfl, extract_empty_diagram [] rfl⟩

/-- Claim C5: for a diagram with a single finite pair `(b, d)`, `d > b`, the
first five features are `(d-b)/sqrt 2`, `(d-b)/sqrt 2`, `0`, `d-b`, and
`sqrt (d-b)`. -/
theorem extract_single_pair (b d : ℚ) (h : b < d) :
    (get_diagram_features [(FVal.fin b, FVal.fin d)]).take 5 =
      [((d : ℝ) - b) / Real.sqrt 2, ((d : ℝ) - b) / Real.sqrt 2, 0,
       (d : ℝ) - b, Real.sqrt (((d - b : ℚ) : ℝ))] := by
  have hff : filterFinite [(FVal.fin b, FVal.fin d)] = [(b, d)] := rfl
  have hl : livesOf [(FVal.fin b, FVal.fin d)] = [d - b] := rfl
  have hne : d - b ≠ 0 := sub_ne_zero.mpr h.ne'
  have hev : bettiEvents [(b, d)] = [(b, false), (d, true)] := by
    simp [bettiEvents, List.insertionSort, List.orderedInsert, evLe, h.le]
  have hbl : bettiLoop 0 (bettiEvents [(b, d)]) = (d - b, d - b) := by
    rw [hev]
    simp [bettiLoop]
  have hent : get_diagram_entropy [d - b] = 0 := by
    unfold get_diagram_entropy
    rw [if_neg]
    · simp [normalizedLives, div_self hne]
    · simpa [pymax, abs_of_pos (sub_pos.mpr h)] using hne
  unfold get_diagram_features
  rw [hff, hl, hent]
  unfold get_area_under_betti_curve
  rw [if_neg (by simp), hbl]
  simp [pymax]

/-- Witness for C5 at the concrete pair `(0, 1)`. -/
theorem extract_single_pair_witness :
    (0 : ℚ) < 1 ∧
      (get_diagram_features [(FVal.fin 0, FVal.fin 1)]).take 5 =
        [(((1 : ℚ) : ℝ) - ((0 : ℚ) : ℝ)) / Real.sqrt 2,
         (((1 : ℚ) : ℝ) - ((0 : ℚ) : ℝ)) / Real.sqrt 2, 0,
         ((1 : ℚ) : ℝ) - ((0 : ℚ) : ℝ), Real.sqrt ((((1 : ℚ) - 0 : ℚ) : ℝ))] :=
  ⟨by norm_num, extract_single_pair 0 1 (by norm_num)⟩

/-- `range(0, m+1, S)` with positive step has `m/S + 1` elements. -/
theorem pyRangeCount_of_pos (m S : ℕ) (hS : 1 ≤ S) :
    pyRangeCount ((m : ℤ) + 1) (S : ℤ) = m / S + 1 := by
  unfold pyRangeCount
  rw [if_pos (by exact_mod_cast hS), if_neg (by omega)]
  rw [add_sub_cancel_right]
  have h : ((m / S : ℕ) : ℤ) = (m : ℤ) / (S : ℤ) := Int.natCast_ediv m S
  rw [← h]
  generalize (m / S : ℕ) = c
  omega

/-- Clamping a nonnegative Python slice endpoint is a `min` with the length. -/
theorem pyClampIndex_natCast (n a : ℕ) : pyClampIndex n (a : ℤ) = min a n := by
  unfold pyClampIndex
  rw [if_neg (by omega)]
  simp

/-- Claim C6: for `1 ≤ length ≤ len(y)` and `shift ≥ 1`, `sliding_windows`
returns exactly `(len(y) - length) / shift + 1` subwindows; the `k`-th is the
`length`-sample slice starting at offset `k * shift`, and each subwindow has
exactly `length` samples. -/
theorem sliding_windows_spec (y : List ℚ) (L S : ℕ)
    (hL : 1 ≤ L) (hLn : L ≤ y.length) (hS : 1 ≤ S) :
    sliding_windows y (L : ℤ) (S : ℤ) =
      .ok ((List.range ((y.length - L) / S + 1)).map
        (fun k => (y.drop (k * S)).take L)) ∧
    ∀ w ∈ (List.range ((y.length - L) / S + 1)).map
        (fun k => (y.drop (k * S)).take L),
      w.length = L := by
  have hcnt : pyRangeCount ((y.length : ℤ) - L + 1) S = (y.length - L) / S + 1 := by
    have he : (y.length : ℤ) - L + 1 = ((y.length - L : ℕ) : ℤ) + 1 := by
      push_cast [hLn]; ring
    rw [he, pyRangeCount_of_pos _ _ hS]
  have hbound : ∀ k, k < (y.length - L) / S + 1 → k * S + L ≤ y.length := by
    intro k hk
    have h1 : k ≤ (y.length - L) / S := by omega
    have h2 : k * S ≤ ((y.length - L) / S) * S := Nat.mul_le_mul_right S h1
    have h3 : ((y.length - L) / S) * S ≤ y.length - L := Nat.div_mul_le_self _ _
    omega
  constructor
  · unfold sliding_windows
    rw [if_neg (by exact_mod_cast Nat.one_le_iff_ne_zero.mp hS)]
    congr 1
    unfold pyRange
    rw [hcnt, List.map_map]
    apply List.map_congr_left
    intro k hk
    have hk' : k < (y.length - L) / S + 1 := List.mem_range.mp hk
    have h1 : k * S + L ≤ y.length := hbound k hk'
    show pySlice y ((k : ℤ) * S) ((k : ℤ) * S + L) = (y.drop (k * S)).take L
    have e1 : (k : ℤ) * (S : ℤ) = ((k * S : ℕ) : ℤ) := by push_cast; ring
    have e2 : (k : ℤ) * (S : ℤ) + (L : ℤ) = ((k * S + L : ℕ) : ℤ) := by push_cast; ring
    unfold pySlice
    rw [e2, e1, pyClampIndex_natCast, pyClampIndex_natCast]
    rw [min_eq_left (by omega), min_eq_left (by omega)]
    congr 1
    omega
  · intro w hw
    obtain ⟨k, hk, rfl⟩ := List.mem_map.mp hw
    have hk' : k < (y.length - L) / S + 1 := List.mem_range.mp hk
    have h1 : k * S + L ≤ y.length := hbound k hk'
    rw [List.length_take, List.length_drop]
    omega

/-- Witness for C6 at `y = [0,1,2,3,4]`, `length = 2`, `shift = 2`. -/
theorem sliding_windows_spec_witness :
    ((1 : ℕ) ≤ 2 ∧ (2 : ℕ) ≤ ([0, 1, 2, 3, 4] : List ℚ).length ∧ (1 : ℕ) ≤ 2) ∧
      (sliding_windows ([0, 1, 2, 3, 4] : List ℚ) ((2 : ℕ) : ℤ) ((2 : ℕ) : ℤ) =
        .ok ((List.range ((([0, 1, 2, 3, 4] : List ℚ).length - 2) / 2 + 1)).map
          (fun k => (([0, 1, 2, 3, 4] : List ℚ).drop (k * 2)).take 2)) ∧
       ∀ w ∈ (List.range ((([0, 1, 2, 3, 4] : List ℚ).length - 2) / 2 + 1)).map
          (fun k => (([0, 1, 2, 3, 4] : List ℚ).drop (k * 2)).take 2),
         w.length = 2) :=
  ⟨⟨by norm_num, by norm_num, by norm_num⟩,
   sliding_windows_spec [0, 1, 2, 3, 4] 2 2 (by norm_num) (by norm_num) (by norm_num)⟩

/-- Claim C9 (amended): no `InvalidConfiguration` check exists. With a
positive shift and `window_length > len(y)`, `sliding_windows` returns the
empty list normally instead of failing; the only erroring configuration is a
zero shift, which raises Python's `ValueError` from `range`, not a
designed configuration error. -/
theorem no_config_validation (y : List ℚ) (L S : ℤ)
    (hS : 1 ≤ S) (hL : (y.length : ℤ) < L) :
    sliding_windows y L S = .ok [] ∧
    sliding_windows y L 0 = .error "ValueError: range() arg 3 must not be zero" := by
  constructor
  · unfold sliding_windows
    rw [if_neg (by omega)]
    have hc : pyRangeCount ((y.length : ℤ) - L + 1) S = 0 := by
      unfold pyRangeCount
      rw [if_pos (by omega), if_pos (by omega)]
    simp [pyRange, hc]
  · rfl

/-- Counterexample to C9 as stated: `subwindow_length = 5` exceeds the
sequence length 3, yet the segmenter returns an empty result normally instead
of failing with a configuration error. -/
theorem no_config_validation_cx :
    sliding_windows ([0, 0, 0] : List ℚ) 5 1 = .ok [] := rfl

/-- Witness for the amended C9 at `y = [0,0,0]`, `length = 5`, `shift = 1`. -/
theorem no_config_validation_witness :
    ((1 : ℤ) ≤ 1 ∧ ((([0, 0, 0] : List ℚ).length : ℤ) < 5)) ∧
      (sliding_windows ([0, 0, 0] : List ℚ) 5 1 = .ok [] ∧
       sliding_windows ([0, 0, 0] : List ℚ) 5 0 =
         .error "ValueError: range() arg 3 must not be zero") :=
  ⟨⟨le_refl 1, by norm_num⟩, no_config_validation [0, 0, 0] 5 1 (le_refl 1) (by norm_num)⟩

/-- Claim C3 (amended): with `subwindows_per_window = 1` the aggregator emits
no rows at all — the sample standard deviation (`ddof = 1`) of a single
observation is undefined (NaN), so `dropna` removes every row. -/
theorem aggregate_single_subwindow (rows : List (List ℚ)) (ncols : ℕ) :
    window_features rows 1 ncols = [] := by
  unfold window_features
  rw [List.filterMap_eq_nil_iff]
  rintro ⟨a, b⟩ hp
  have hb := (List.of_mem_zip hp).2
  unfold rollingStd at hb
  simp only [List.mem_map] at hb
  obtain ⟨i, _, hi⟩ := hb
  rw [if_neg (by omega)] at hi
  rw [← hi]
  rcases a with _ | m <;> rfl

/-- Counterexample to C3 as stated: one input feature row with
`subwindows_per_window = 1` produces no output row, not a row with mean equal
to the input and standard deviation 0. -/
theorem aggregate_single_subwindow_cx :
    window_features [[(1 : ℚ)]] 1 1 = [] ∧
    window_features [[(1 : ℚ)]] 1 1 ≠ [[(1 : ℝ), 0]] := by
  have h0 : window_features [[(1 : ℚ)]] 1 1 = [] := rfl
  exact ⟨h0, by rw [h0]; simp⟩

/-- The per-column windowed mean, in the words of the specification: the sum
of column `j` over input rows `i - w + 1 .. i`, divided by `w`. -/
def specMean (rows : List (List ℚ)) (w i j : ℕ) : ℚ :=
  (((rows.drop (i + 1 - w)).take w).map (fun r => r.getD j 0)).sum / (w : ℚ)

/-- The per-column windowed sample variance, in the words of the
specification: squared deviations from the windowed mean over rows
`i - w + 1 .. i`, divided by `w - 1`. -/
def specVar (rows : List (List ℚ)) (w i j : ℕ) : ℚ :=
  (((rows.drop (i + 1 - w)).take w).map
    (fun r => (r.getD j 0 - specMean rows w i j) ^ 2)).sum / ((w : ℚ) - 1)

/-- The aggregation contract in the words of the specification: emit a row
exactly for the indices `i ≥ subwindows_per_window - 1`; the row is the
per-column means over input rows `i - w + 1 .. i` followed by the per-column
sample standard deviations. -/
noncomputable def aggregateSpec (rows : List (List ℚ)) (w ncols : ℕ) : List (List ℝ) :=
  (List.range rows.length).filterMap (fun i =>
    if w - 1 ≤ i then
      some (((List.range ncols).map (fun j => ((specMean rows w i j : ℚ) : ℝ))) ++
        ((List.range ncols).map (fun j => Real.sqrt ((specVar rows w i j : ℚ) : ℝ))))
    else none)

/-- Claim C7: for `subwindows_per_window = w ≥ 2`, the rolling mean/std plus
`dropna` pipeline emits rows exactly for `i ≥ w - 1`, and row `i` is the
concatenation of per-column means and per-column sample standard deviations
(`N-1` denominator) over input rows `i - w + 1 .. i`. -/
theorem aggregate_rolling_spec (rows : List (List ℚ)) (w ncols : ℕ) (hw : 2 ≤ w) :
    window_features rows w ncols = aggregateSpec rows w ncols := by
  unfold window_features aggregateSpec rollingMean rollingStd
  rw [List.zip_map', List.filterMap_map]
  apply List.filterMap_congr
  intro i hi
  have hin : i < rows.length := List.mem_range.mp hi
  have hlen : ((rows.drop (i + 1 - w)).take w).length = w ∨ ¬w ≤ i + 1 := by
    by_cases hcond : w ≤ i + 1
    · left
      rw [List.length_take, List.length_drop]
      omega
    · right; exact hcond
  dsimp only [Function.comp]
  by_cases hcond : w ≤ i + 1
  · rw [if_pos hcond, if_pos (And.intro hw hcond), if_pos (by omega)]
    have hl : ((rows.drop (i + 1 - w)).take w).length = w := hlen.resolve_right (by simpa using hcond)
    show some _ = some _
    congr 1
    congr 1
    · unfold meanRowAt
      rw [List.map_map]
      apply List.map_congr_left
      intro j _
      show ((colMean (windowSlice rows w i) j : ℚ) : ℝ) = ((specMean rows w i j : ℚ) : ℝ)
      congr 1
      unfold colMean colAt windowSlice specMean
      rw [hl]
    · unfold stdRowAt
      apply List.map_congr_left
      intro j _
      show Real.sqrt ((colVar (windowSlice rows w i) j : ℚ) : ℝ) =
        Real.sqrt ((specVar rows w i j : ℚ) : ℝ)
      congr 1
      unfold colVar colMean colAt windowSlice specVar specMean
      rw [hl]
  · rw [if_neg hcond, if_neg (fun h => hcond h.2), if_neg (by omega)]

/-- Witness for C7 at two one-column rows and `w = 2`. -/
theorem aggregate_rolling_spec_witness :
    2 ≤ 2 ∧
      window_features [[(1 : ℚ)], [(3 : ℚ)]] 2 1 = aggregateSpec [[(1 : ℚ)], [(3 : ℚ)]] 2 1 :=
  ⟨le_refl 2, aggregate_rolling_spec [[(1 : ℚ)], [(3 : ℚ)]] 2 1 (le_refl 2)⟩

/-- `np.unique(..., axis=0)` is invariant under permutation of the rows. -/
theorem npUnique_perm_eq (l l' : List (ℚ × ℚ)) (h : l.Perm l') :
    npUnique l = npUnique l' := by
  unfold npUnique sortRows
  exact List.eq_of_perm_of_sorted
    ((List.perm_insertionSort rowLe l.dedup).trans
      (h.dedup.trans (List.perm_insertionSort rowLe l'.dedup).symm))
    (List.sorted_insertionSort rowLe l.dedup)
    (List.sorted_insertionSort rowLe l'.dedup)

/-- `np.unique(..., axis=0)` absorbs an exact duplicate of an existing row. -/
theorem npUnique_cons_mem (x : ℚ × ℚ) (l : List (ℚ × ℚ)) (h : x ∈ l) :
    npUnique (x :: l) = npUnique l := by
  unfold npUnique
  rw [List.dedup_cons_of_mem h]

/-- Claim C4: for a non-empty diagram of finite pairs, the landscape-area
features are unchanged by any permutation of the diagram's rows and by exact
duplication of a row — the initial `np.unique` deduplication-and-sort
neutralizes both. -/
theorem landscape_area_invariant :
    (∀ l l' : List (ℚ × ℚ), l ≠ [] → l.Perm l' →
      get_area_under_landscape l = get_area_under_landscape l') ∧
    (∀ (x : ℚ × ℚ) (l : List (ℚ × ℚ)), x ∈ l →
      get_area_under_landscape (x :: l) = get_area_under_landscape l) := by
  constructor
  · intro l l' _ hperm
    unfold get_area_under_landscape getLandscapeReturnPoints getLandscapePoints
    rw [npUnique_perm_eq l l' hperm, hperm.length_eq]
  · intro x l hx
    have hne : l ≠ [] := by
      intro h
      subst h
      exact absurd hx (List.not_mem_nil x)
    unfold get_area_under_landscape getLandscapeReturnPoints getLandscapePoints
    rw [npUnique_cons_mem x l hx]
    rw [if_neg (by simp), if_neg (by simp [List.length_eq_zero, hne])]

/-- Witness for C4: a transposition of a two-row diagram and a duplication of
its first row leave the landscape areas unchanged. -/
theorem landscape_area_invariant_witness :
    (([((0 : ℚ), (1 : ℚ)), ((2 : ℚ), (3 : ℚ))] : List (ℚ × ℚ)) ≠ [] ∧
     ([((0 : ℚ), (1 : ℚ)), ((2 : ℚ), (3 : ℚ))] : List (ℚ × ℚ)).Perm
       [((2 : ℚ), (3 : ℚ)), ((0 : ℚ), (1 : ℚ))] ∧
     get_area_under_landscape [((0 : ℚ), (1 : ℚ)), ((2 : ℚ), (3 : ℚ))] =
       get_area_under_landscape [((2 : ℚ), (3 : ℚ)), ((0 : ℚ), (1 : ℚ))]) ∧
    (((0 : ℚ), (1 : ℚ)) ∈ ([((0 : ℚ), (1 : ℚ)), ((2 : ℚ), (3 : ℚ))] : List (ℚ × ℚ)) ∧
     get_area_under_landscape
         [((0 : ℚ), (1 : ℚ)), ((0 : ℚ), (1 : ℚ)), ((2 : ℚ), (3 : ℚ))] =
       get_area_under_landscape [((0 : ℚ), (1 : ℚ)), ((2 : ℚ), (3 : ℚ))]) :=
  ⟨⟨by simp, List.Perm.swap ((2 : ℚ), (3 : ℚ)) ((0 : ℚ), (1 : ℚ)) [],
    landscape_area_invariant.1 _ _ (by simp)
      (List.Perm.swap ((2 : ℚ), (3 : ℚ)) ((0 : ℚ), (1 : ℚ)) [])⟩,
   ⟨by simp, landscape_area_invariant.2 _ _ (by simp)⟩⟩

/-- A nonempty list of negative rationals has a negative sum. -/
theorem list_sum_neg (l : List ℚ) (hne : l ≠ []) (h : ∀ x ∈ l, x < 0) :
    l.sum < 0 := by
  induction l with
  | nil => exact absurd rfl hne
  | cons a t ih =>
    rw [List.sum_cons]
    rcases t with _ | ⟨b, u⟩
    · simpa using h a (by simp)
    · have ht := ih (by simp) (fun x hx => h x (List.mem_cons_of_mem a hx))
      have ha := h a (by simp)
      linarith

/-- A left fold of `max` stays negative when every input is negative. -/
theorem foldl_max_neg (xs : List ℚ) :
    ∀ acc : ℚ, acc < 0 → (∀ x ∈ xs, x < 0) → xs.foldl max acc < 0 := by
  induction xs with
  | nil => intro acc hacc _; simpa using hacc
  | cons a t ih =>
    intro acc hacc h
    rw [List.foldl_cons]
    exact ih (max acc a) (max_lt hacc (h a (by simp)))
      (fun x hx => h x (List.mem_cons_of_mem a hx))

/-- Python's `max` of a nonempty list of negative rationals is negative. -/
theorem pymax_neg (l : List ℚ) (hne : l ≠ []) (h : ∀ x ∈ l, x < 0) :
    pymax l < 0 := by
  rcases l with _ | ⟨x, xs⟩
  · exact absurd rfl hne
  · exact foldl_max_neg xs x (h x (by simp)) (fun y hy => h y (List.mem_cons_of_mem x hy))

/-- Claim C8 (amended): `get_diagram_lives` computes `death - birth` with no
absolute value, so for a diagram all of whose finite pairs have
`birth > death` (upper-level-set diagrams), `total_life` and `max_life` are
strictly negative — not non-negative as the claim states. -/
theorem lives_signed_not_absolute (dgm : List (FVal × FVal))
    (h1 : filterFinite dgm ≠ [])
    (h2 : ∀ p ∈ filterFinite dgm, p.2 < p.1) :
    livesOf dgm = (filterFinite dgm).map (fun p => p.2 - p.1) ∧
    (get_diagram_features dgm).getD 0 0 < 0 ∧
    (get_diagram_features dgm).getD 1 0 < 0 := by
  have hlives : livesOf dgm = (filterFinite dgm).map (fun p => p.2 - p.1) := by
    unfold livesOf get_diagram_lives
    rw [if_pos]
    simp [List.length_pos, h1]
  have hneg : ∀ x ∈ livesOf dgm, x < 0 := by
    rw [hlives]
    intro x hx
    obtain ⟨p, hp, rfl⟩ := List.mem_map.mp hx
    exact sub_neg.mpr (h2 p hp)
  have hne : livesOf dgm ≠ [] := by
    rw [hlives]
    simp [h1]
  have hsum : (livesOf dgm).sum < 0 := list_sum_neg _ hne hneg
  have hmax : pymax (livesOf dgm) < 0 := pymax_neg _ hne hneg
  have hsq : (0 : ℝ) < Real.sqrt 2 := Real.sqrt_pos.mpr (by norm_num)
  refine ⟨hlives, ?_, ?_⟩
  · show ((livesOf dgm).sum : ℝ) / Real.sqrt 2 < 0
    exact div_neg_of_neg_of_pos (by exact_mod_cast hsum) hsq
  · show ((pymax (livesOf dgm) : ℚ) : ℝ) / Real.sqrt 2 < 0
    exact div_neg_of_neg_of_pos (by exact_mod_cast hmax) hsq

/-- Counterexample to C8 as stated: the diagram with the single pair
`(birth, death) = (1, 0)` has a pair with `birth > death`, and its
`total_life` feature is strictly negative, so the features are not computed
from `|death - birth|`. -/
theorem lives_signed_cx :
    (get_diagram_features [(FVal.fin 1, FVal.fin 0)]).getD 0 0 < 0 := by
  have h : livesOf [(FVal.fin 1, FVal.fin 0)] = [-1] := by
    norm_num [livesOf, filterFinite, rowFinite, FVal.isinf, finVal, get_diagram_lives]
  show ((livesOf [(FVal.fin 1, FVal.fin 0)]).sum : ℝ) / Real.sqrt 2 < 0
  rw [h]
  exact div_neg_of_neg_of_pos (by norm_num) (Real.sqrt_pos.mpr (by norm_num))

/-- Witness for the amended C8 at the single upper-level-set pair `(1, 0)`. -/
theorem lives_signed_witness :
    (filterFinite [(FVal.fin 1, FVal.fin 0)] ≠ [] ∧
     ∀ p ∈ filterFinite [(FVal.fin 1, FVal.fin 0)], p.2 < p.1) ∧
    (livesOf [(FVal.fin 1, FVal.fin 0)] =
        (filterFinite [(FVal.fin 1, FVal.fin 0)]).map (fun p => p.2 - p.1) ∧
     (get_diagram_features [(FVal.fin 1, FVal.fin 0)]).getD 0 0 < 0 ∧
     (get_diagram_features [(FVal.fin 1, FVal.fin 0)]).getD 1 0 < 0) :=
  ⟨⟨by norm_num [filterFinite, rowFinite, FVal.isinf],
    by norm_num [filterFinite, rowFinite, FVal.isinf, finVal]⟩,
   lives_signed_not_absolute _
     (by norm_num [filterFinite, rowFinite, FVal.isinf])
     (by norm_num [filterFinite, rowFinite, FVal.isinf, finVal])⟩

/-- Claim C2 (code bug): on the diagram `[[0,0],[0,1]]` (lives `[0, 1]`), the
entropy guard `max(abs(lives)) == 0` does not fire, yet the normalized lives
contain `0` — so the unguarded `np.log` receives `0` and the floating-point
computation produces `0 * (-inf) = NaN` instead of treating the zero-life
contribution as `0` as the specification requires. -/
theorem entropy_zero_life_unguarded :
    pymax ((livesOf [(FVal.fin 0, FVal.fin 0), (FVal.fin 0, FVal.fin 1)]).map
        (fun x => |x|)) ≠ 0 ∧
    (0 : ℚ) ∈ normalizedLives
        (livesOf [(FVal.fin 0, FVal.fin 0), (FVal.fin 0, FVal.fin 1)]) := by
  have h : livesOf [(FVal.fin 0, FVal.fin 0), (FVal.fin 0, FVal.fin 1)] = [0, 1] := by
    norm_num [livesOf, filterFinite, rowFinite, FVal.isinf, finVal, get_diagram_lives]
  rw [h]
  constructor
  · norm_num [pymax]
  · norm_num [normalizedLives]

/-- numpy's total order on one coordinate: `-inf < finite < +inf`. -/
def FVal.leB : FVal → FVal → Bool
  | .ninf, _ => true
  | _, .inf => true
  | .fin a, .fin b => decide (a ≤ b)
  | _, _ => false

/-- Lexicographic row order over all columns, as used by
`np.unique(..., axis=0)` on an `(n, k)` array. -/
def listFValLeB : List FVal → List FVal → Bool
  | [], _ => true
  | _ :: _, [] => false
  | a :: as, b :: bs => if a = b then listFValLeB as bs else a.leB b

/-- `np.unique(..., axis=0)` on general-arity rows: exact row deduplication
followed by a full-row lexicographic sort. -/
def uniqueG (l : List (List FVal)) : List (List FVal) :=
  List.insertionSort (fun a b => listFValLeB a b = true) l.dedup

/-- `diagram[~np.any(np.isinf(diagram), axis=1)]` on general-arity rows. -/
def filterFiniteG (dgm : List (List FVal)) : List (List FVal) :=
  dgm.filter (fun r => !(r.any FVal.isinf))

/-- Columns 0 and 1 of a general row — the only columns the feature math
reads (`diagram[:,0]`, `diagram[:,1]`). -/
def projRow (r : List FVal) : ℚ × ℚ :=
  (finVal (r.getD 0 .inf), finVal (r.getD 1 .inf))

/-- The `(birth, death)` columns of the infinity-filtered general diagram. -/
def projG (dgm : List (List FVal)) : List (ℚ × ℚ) :=
  (filterFiniteG dgm).map projRow

/-- `getLandscapePoints` on a general diagram: full-row `np.unique`, then the
stable `lexsort` on the `(col0, col1)` keys, then the running-max filter. -/
def landscapePointsG (dgm : List (List FVal)) : List (ℚ × ℚ) :=
  runMaxFilter (sortRows ((uniqueG (filterFiniteG dgm)).map projRow))

/-- `get_area_under_landscape` on a general diagram. -/
noncomputable def landscapeG (dgm : List (List FVal)) : ℝ × ℝ :=
  if (filterFiniteG dgm).length = 0 then (0, 0)
  else (((sumSegments (returnPointsFrom (landscapePointsG dgm))).1 : ℝ),
        Real.sqrt ((sumSegments (returnPointsFrom (landscapePointsG dgm))).2 : ℝ))

/-- `get_diagram_features` on a diagram of arbitrary row arity, as numpy
executes it: rows shorter than two columns make `diagram[:,1]` raise an
`IndexError`; otherwise the features are computed from columns 0 and 1 with
no validation of extra columns. -/
noncomputable def get_diagram_features_general (dgm : List (List FVal)) :
    Except String (List ℝ) :=
  if dgm.any (fun r => decide (r.length < 2)) then .error "IndexError"
  else .ok
    [((get_diagram_lives (projG dgm)).sum : ℝ) / Real.sqrt 2,
     ((pymax (get_diagram_lives (projG dgm)) : ℚ) : ℝ) / Real.sqrt 2,
     get_diagram_entropy (get_diagram_lives (projG dgm)),
     (get_area_under_betti_curve (projG dgm)).1,
     (get_area_under_betti_curve (projG dgm)).2,
     (landscapeG dgm).1,
     (landscapeG dgm).2]

/-- `true` iff an `Except` result is a normal (`ok`) return. -/
def isOkB {α : Type} : Except String α → Bool
  | .ok _ => true
  | .error _ => false

/-- Claim C10 (amended): no `InvalidDiagram` validation exists. A diagram row
with an extra third column is silently coerced — the extractor returns
normally with exactly the features of the two-column diagram built from its
first two columns. -/
theorem extract_wrong_arity_coerces (b d x : ℚ) :
    get_diagram_features_general [[FVal.fin b, FVal.fin d, FVal.fin x]] =
      .ok (get_diagram_features [(FVal.fin b, FVal.fin d)]) := rfl

/-- Counterexample to C10 as stated: the malformed (arity-3) diagram
`[[0, 1, 5]]` does not make the extractor fail; it returns normally. -/
theorem extract_wrong_arity_cx :
    isOkB (get_diagram_features_general [[FVal.fin 0, FVal.fin 1, FVal.fin 5]]) = true := rfl

end TDA
